import Mathlib

/-!
Verification of the YAML document merger (src/yamlpath/merger.py) of the
yamlpath repository.

The document model is a shallow embedding of the ruamel-parsed YAML trees
the merger operates on: scalars (carrying an optional anchor name),
sequences (CommentedSeq) and mappings (CommentedMap, whose entry order is
significant).  Mapping keys are modelled as scalar keys (a string value
plus an optional anchor): every code path of the merger treats keys as
hashable scalar-like objects (str(key), key in lhs, key.anchor).

A scalar whose anchor is none models a plain Python str, which does not
carry an anchor attribute at all; an anchored scalar models a ruamel
ScalarString subclass carrying the anchor.  Python value equality (==)
compares underlying values and ignores anchors; it is modelled by valueEq
below.  Mutation is modelled by explicit state passing; fatal
logger.error calls and unguarded Python crashes are modelled as Except
errors.  Comment attachments are not represented: the merger strips them
before doing anything else and no merge rule consults them, so
Merger.delete_all_comments is the identity of this model.
-/

/-- A mapping key: a scalar value with an optional anchor name. -/
structure SKey where
  val : String
  anchor : Option String
  deriving DecidableEq, Repr

/-- A YAML node: scalar, sequence, or mapping (ordered entries). -/
inductive Node where
  | scalar (anchor : Option String) (val : String)
  | seq (anchor : Option String) (elems : List Node)
  | map (anchor : Option String) (entries : List (SKey × Node))
  deriving Repr

/-- The anchor attached to a node, when any (hasattr plus non-None value:
a plain scalar with no anchor has no anchor attribute; containers always
have the attribute but its value may be None, modelled as none). -/
def Node.anchorOf : Node → Option String
  | .scalar a _ => a
  | .seq a _ => a
  | .map a _ => a

/-- Overwrite the anchor attached to a node. -/
def Node.withAnchor : Node → String → Node
  | .scalar _ v, a => .scalar (some a) v
  | .seq _ es, a => .seq (some a) es
  | .map _ es, a => .map (some a) es

mutual

/-- Python value equality (==) between nodes: compares scalar values,
sequence elements pairwise and mapping entries pairwise (key strings and
values), ignoring anchors throughout.  Mapping comparison is pairwise in
order, which agrees with OrderedDict equality on duplicate-free maps. -/
def valueEq : Node → Node → Bool
  | .scalar _ v, .scalar _ w => v == w
  | .seq _ es, .seq _ fs => valueEqList es fs
  | .map _ es, .map _ fs => valueEqEntries es fs
  | _, _ => false

/-- Pairwise value equality of sequence elements. -/
def valueEqList : List Node → List Node → Bool
  | [], [] => true
  | e :: es, f :: fs => valueEq e f && valueEqList es fs
  | _, _ => false

/-- Pairwise value equality of mapping entries. -/
def valueEqEntries : List (SKey × Node) → List (SKey × Node) → Bool
  | [], [] => true
  | (k, v) :: es, (l, w) :: fs => k.val == l.val && valueEq v w && valueEqEntries es fs
  | _, _ => false

end

/-- The name-to-node anchor dictionary built by the anchor scan, an
insertion-ordered association list with Python-dict update semantics. -/
abbrev AnchorMap := List (String × Node)

/-- Python dict lookup: first (unique) entry with the given key. -/
def lookupA : AnchorMap → String → Option Node
  | [], _ => none
  | (k0, v0) :: rest, k => if k0 == k then some v0 else lookupA rest k

/-- Python dict assignment d[k] = v: update in place when the key is
present (keeping its position), append otherwise. -/
def setA (m : AnchorMap) (k : String) (v : Node) : AnchorMap :=
  match m with
  | [] => [(k, v)]
  | (k0, v0) :: rest =>
    if k0 == k then (k0, v) :: rest else (k0, v0) :: setA rest k v

mutual

/-- Merger.scan_for_anchors (merger.py lines 449-469): record every
anchored mapping key, every anchored mapping value, and every anchored
scalar reached as a sequence element or at the root; recurse into mapping
values that are containers and into all sequence elements.  A container
reached as a sequence element or at the root does not get its own anchor
recorded (faithful to the source, which only checks anchors of keys, of
values, and of non-container nodes). -/
def scanForAnchors : Node → AnchorMap → AnchorMap
  | .map _ entries, acc => scanEntries entries acc
  | .seq _ elems, acc => scanElems elems acc
  | .scalar (some a) v, acc => setA acc a (.scalar (some a) v)
  | .scalar none _, acc => acc

/-- The mapping-entry loop of Merger.scan_for_anchors. -/
def scanEntries : List (SKey × Node) → AnchorMap → AnchorMap
  | [], acc => acc
  | (k, v) :: rest, acc =>
    let acc1 := match k.anchor with
      | some a => setA acc a (.scalar k.anchor k.val)
      | none => acc
    let acc2 := match v.anchorOf with
      | some a => setA acc1 a v
      | none => acc1
    let acc3 := match v with
      | .map _ _ => scanForAnchors v acc2
      | .seq _ _ => scanForAnchors v acc2
      | _ => acc2
    scanEntries rest acc3

/-- The sequence-element loop of Merger.scan_for_anchors. -/
def scanElems : List Node → AnchorMap → AnchorMap
  | [], acc => acc
  | e :: rest, acc => scanElems rest (scanForAnchors e acc)

end

/-- Folding dict assignments over a record list: the anchor dictionary
obtained after recording each (name, node) pair in order. -/
def foldSet (m : AnchorMap) (l : List (String × Node)) : AnchorMap :=
  l.foldl (fun acc p => setA acc p.1 p.2) m

mutual

/-- The (name, node) pairs Merger.scan_for_anchors records, in visit
order; scanForAnchors is exactly foldSet over this list. -/
def scanRecords : Node → List (String × Node)
  | .map _ entries => scanRecordsEntries entries
  | .seq _ elems => scanRecordsElems elems
  | .scalar (some a) v => [(a, .scalar (some a) v)]
  | .scalar none _ => []

/-- The pairs recorded while scanning mapping entries. -/
def scanRecordsEntries : List (SKey × Node) → List (String × Node)
  | [] => []
  | (k, v) :: rest =>
    (match k.anchor with
      | some a => [(a, Node.scalar k.anchor k.val)]
      | none => [])
    ++ (match v.anchorOf with
      | some a => [(a, v)]
      | none => [])
    ++ (match v with
      | .map _ _ => scanRecords v
      | .seq _ _ => scanRecords v
      | _ => [])
    ++ scanRecordsEntries rest

/-- The pairs recorded while scanning sequence elements. -/
def scanRecordsElems : List Node → List (String × Node)
  | [] => []
  | e :: rest => scanRecords e ++ scanRecordsElems rest

end

/-- Modelled from the spec: escape_path_section from yamlpath.func (not
under src/) escapes the forward-slash separator inside a path segment,
matching the inline escaping used by Merger._merge_dicts. -/
def escapePathSection (s : String) : String :=
  s.replace "/" "\\/"

/-- Merger.search_for_anchor (merger.py lines 471-490), including its
early-return behavior: the loop bodies return unconditionally on the
first iteration, so only the first entry of each mapping and the first
element of each sequence is ever examined. -/
def searchForAnchor : Node → String → String → Option String
  | .map _ [], _, _ => none
  | .map _ ((k, v) :: _), anchor, path =>
    let pathNext := path ++ "/" ++ escapePathSection k.val
    if k.anchor = some anchor then some (path ++ "/&" ++ anchor)
    else if v.anchorOf = some anchor then some pathNext
    else searchForAnchor v anchor pathNext
  | .seq _ [], _, _ => none
  | .seq _ (e :: _), anchor, path => searchForAnchor e anchor (path ++ "[0]")
  | .scalar a _, anchor, path => if a = some anchor then some path else none

mutual

/-- Merger.rename_anchor (merger.py lines 492-506): rename anchored keys,
anchored values and, recursively, everything below mapping values and
sequence elements.  A container reached as a sequence element does not
get its own anchor renamed (only the value-position check of line 499
renames a container's own anchor), faithful to the source.  The
value-position rename of line 499 is applied after the recursive walk of
line 501; the two orders agree because the recursive walk never touches
the node's own anchor for containers and performs the same rename for
scalars. -/
def renameAnchor : Node → String → String → Node
  | .scalar a v, anchor, newAnchor =>
    if a = some anchor then .scalar (some newAnchor) v else .scalar a v
  | .seq a elems, anchor, newAnchor => .seq a (renameAnchorElems elems anchor newAnchor)
  | .map a entries, anchor, newAnchor => .map a (renameAnchorEntries entries anchor newAnchor)

/-- The mapping-entry loop of Merger.rename_anchor. -/
def renameAnchorEntries : List (SKey × Node) → String → String → List (SKey × Node)
  | [], _, _ => []
  | (k, v) :: rest, anchor, newAnchor =>
    let k1 := if k.anchor = some anchor then { k with anchor := some newAnchor } else k
    let vr := renameAnchor v anchor newAnchor
    let v1 := if v.anchorOf = some anchor then vr.withAnchor newAnchor else vr
    (k1, v1) :: renameAnchorEntries rest anchor newAnchor

/-- The sequence-element loop of Merger.rename_anchor. -/
def renameAnchorElems : List Node → String → String → List Node
  | [], _, _ => []
  | e :: rest, anchor, newAnchor =>
    renameAnchor e anchor newAnchor :: renameAnchorElems rest anchor newAnchor

end

mutual

/-- The anchor-name occurrences at the positions Merger.rename_anchor
visits below a node, in visit order: for a scalar its own anchor, for a
container the occurrences of its contents (a container reached as a
sequence element or at the root contributes its contents but not its own
anchor, exactly as in rename_anchor). -/
def anchorsInside : Node → List String
  | .scalar a _ => a.toList
  | .seq _ es => anchorsElems es
  | .map _ es => anchorsEntries es

/-- Anchor-name occurrences within mapping entries: the key anchor, the
value's own anchor, and the occurrences inside the value. -/
def anchorsEntries : List (SKey × Node) → List String
  | [] => []
  | (k, v) :: rest => k.anchor.toList ++ anchorsVal v ++ anchorsEntries rest

/-- Anchor-name occurrences of a node in mapping-value position: its own
anchor followed by the occurrences of its contents. -/
def anchorsVal : Node → List String
  | .scalar a _ => a.toList
  | .seq a es => a.toList ++ anchorsElems es
  | .map a es => a.toList ++ anchorsEntries es

/-- Anchor-name occurrences within sequence elements. -/
def anchorsElems : List Node → List String
  | [] => []
  | e :: rest => anchorsInside e ++ anchorsElems rest

end

/-- Renaming of one anchor name inside an occurrence list. -/
def substAnchor (a f x : String) : String :=
  if x = a then f else x

/-- The loop of Merger._calc_unique_anchor (merger.py lines 307-318):
while the candidate collides, append an underscore and the rendering of
the Python hash of the current candidate.  The hash rendering
(str(hash(anchor)).replace("-", "_")) is an environment parameter
hashString; each step strictly lengthens the candidate, so fuel one
greater than the number of known anchors always suffices. -/
def calcUniqueAnchorGo (hashString : String → String) :
    Nat → String → List String → String
  | 0, anchor, _ => anchor
  | fuel + 1, anchor, known =>
    if anchor ∈ known then
      calcUniqueAnchorGo hashString fuel (anchor ++ "_" ++ hashString anchor) known
    else anchor

/-- Merger._calc_unique_anchor: repeatedly append a disambiguating suffix
until the name is absent from the known-anchor set. -/
def calcUniqueAnchor (hashString : String → String)
    (anchor : String) (known : List String) : String :=
  calcUniqueAnchorGo hashString (known.length + 1) anchor known

/-- HashMergeOpts (yamlpath.enums; values per the spec policy table). -/
inductive HashMergeOpts where
  | left | right | deep
  deriving DecidableEq, Repr

/-- ArrayMergeOpts (yamlpath.enums; values per the spec policy table). -/
inductive ArrayMergeOpts where
  | left | right | unique | all
  deriving DecidableEq, Repr

/-- AoHMergeOpts (yamlpath.enums).  The spec policy table lists LEFT,
RIGHT, UNIQUE, DEEP; the source's final else-branch appends
unconditionally for any other mode, which the spec calls unset/other and
this model calls all. -/
inductive AoHMergeOpts where
  | left | right | deep | unique | all
  deriving DecidableEq, Repr

/-- AnchorConflictResolutions (yamlpath.enums).  The source dispatches on
RENAME, LEFT and RIGHT and aborts in every other case; stop models the
abort default (modelled from the spec: ABORT is the default when the
option is unset). -/
inductive AnchorConflictResolutions where
  | rename | left | right | stop
  deriving DecidableEq, Repr

/-- The key-or-index position of a node inside its parent. -/
inductive ParentRef where
  | key (k : SKey)
  | idx (n : Nat)
  deriving DecidableEq, Repr

/-- NodeCoords (yamlpath.wrappers): the (node, parent, parentref) triple
handed to the policy provider at each policy lookup. -/
structure NodeCoords where
  node : Node
  parent : Option Node
  parentref : Option ParentRef

/-- The fatal outcomes of a merge.  logger.error with an exit code is
modelled from the spec as fatal termination (ConsolePrinter is not under
src/); unguarded Python crashes (mismatched kinds, missing identity key)
are modelled as typed errors per the spec error-handling section. -/
inductive MergeError where
  | notImplementedDict
  | notImplementedList
  | anchorConflict (anchor : String)
  | lookupFailure (anchor : String)
  | structuralMismatch (path : String)
  | keyError (key : String) (path : String)
  deriving DecidableEq, Repr

/-- MergerConfig plus the external collaborators, modelled from the spec
external-interfaces section (the MergerConfig and Processor classes are
not under src/): per-coordinate policy lookups, the anchor-conflict mode,
the Path Resolver (Processor.get_nodes reduced to its first yielded node,
none when the path cannot be resolved), and the Python string-hash
rendering used by Merger._calc_unique_anchor. -/
structure MergerConfig where
  hashMode : NodeCoords → HashMergeOpts
  arrayMode : NodeCoords → ArrayMergeOpts
  aohMode : NodeCoords → AoHMergeOpts
  aohMergeKey : NodeCoords → Node → String
  anchorMode : AnchorConflictResolutions
  resolver : Node → Option String → Option Node
  hashString : String → String

mutual

/-- The inner recursive_anchor_replace of Merger._overwrite_aliased_values
(merger.py lines 385-409): in a mapping, replace every key whose anchor
matches by the replacement node at the same position and with the same
value, and replace every value whose anchor matches by the replacement
node, recursing into the other values; in a sequence, replace matching
elements and recurse into the others; any other node is left unchanged
(a scalar target document is never rewritten). -/
def recursiveAnchorReplace : Node → String → Node → Node
  | .map a entries, anchor, repl => .map a (replaceEntries entries anchor repl)
  | .seq a elems, anchor, repl => .seq a (replaceElems elems anchor repl)
  | d, _, _ => d

/-- The mapping phase of recursive_anchor_replace.  Key replacement
(data.insert(idx, repl_node, data.pop(key))) keeps the entry position and
value; the replacement node is rendered as a scalar key (a container
replacement key is not representable with scalar keys and leaves the key
unchanged, a configuration outside the scalar-anchor scope of the
merger). -/
def replaceEntries : List (SKey × Node) → String → Node → List (SKey × Node)
  | [], _, _ => []
  | (k, v) :: rest, anchor, repl =>
    let k1 := if k.anchor = some anchor then
        match repl with
        | .scalar an w => ⟨w, an⟩
        | _ => k
      else k
    let v1 := if v.anchorOf = some anchor then repl
      else recursiveAnchorReplace v anchor repl
    (k1, v1) :: replaceEntries rest anchor repl

/-- The sequence phase of recursive_anchor_replace. -/
def replaceElems : List Node → String → Node → List Node
  | [], _, _ => []
  | e :: rest, anchor, repl =>
    (if e.anchorOf = some anchor then repl else recursiveAnchorReplace e anchor repl)
      :: replaceElems rest anchor repl

end

/-- Merger._overwrite_aliased_values (merger.py lines 381-428): locate one
occurrence of the anchor in the source document via search_for_anchor,
fetch the node there through the external Path Resolver (one get_nodes
call, first yielded node), and substitute it for every occurrence of the
anchor throughout the target document.  A resolver failure (including an
unresolvable none path) is the fatal LookupFailure of the spec. -/
def overwriteAliasedValues (cfg : MergerConfig) (source target : Node)
    (anchor : String) : Except MergeError Node :=
  match cfg.resolver source (searchForAnchor source anchor "") with
  | none => .error (.lookupFailure anchor)
  | some sourceNode => .ok (recursiveAnchorReplace target anchor sourceNode)

/-- The body of the conflict loop of Merger._resolve_anchor_conflicts
(merger.py lines 332-379) for one conflicting anchor name, acting on the
current (target, incoming) state.  The anchor maps are the ones computed
once before the loop; a mapping- or sequence-valued target-side anchor is
fatal before any value comparison; equal-valued scalars are no conflict;
otherwise the configured mode dispatches.  The final wildcard arm is
unreachable: the loop only visits names present in both maps. -/
def resolveStep (cfg : MergerConfig) (lhsAnchors rhsAnchors : AnchorMap)
    (st : Node × Node) (anchor : String) : Except MergeError (Node × Node) :=
  match lookupA lhsAnchors anchor, lookupA rhsAnchors anchor with
  | some primeAlias, some readerAlias =>
    match primeAlias with
    | .map _ _ => .error .notImplementedDict
    | .seq _ _ => .error .notImplementedList
    | _ =>
      if valueEq primeAlias readerAlias then .ok st
      else
        match cfg.anchorMode with
        | .rename =>
          .ok (st.1, renameAnchor st.2 anchor
            (calcUniqueAnchor cfg.hashString anchor
              (lhsAnchors.map Prod.fst ++ rhsAnchors.map Prod.fst)))
        | .left =>
          (overwriteAliasedValues cfg st.1 st.2 anchor).map (fun rhs2 => (st.1, rhs2))
        | .right =>
          (overwriteAliasedValues cfg st.2 st.1 anchor).map (fun lhs2 => (lhs2, st.2))
        | .stop => .error (.anchorConflict anchor)
  | _, _ => .ok st

/-- The conflict loop of Merger._resolve_anchor_conflicts, folding
resolveStep over the conflicting names in incoming-scan order. -/
def resolveLoop (cfg : MergerConfig) (lhsAnchors rhsAnchors : AnchorMap) :
    List String → Node × Node → Except MergeError (Node × Node)
  | [], st => .ok st
  | a :: rest, st =>
    match resolveStep cfg lhsAnchors rhsAnchors st a with
    | .ok st2 => resolveLoop cfg lhsAnchors rhsAnchors rest st2
    | .error e => .error e

/-- Merger._resolve_anchor_conflicts (merger.py lines 320-379): scan both
documents for anchors, then resolve every name present in both maps,
threading the (target, incoming) pair through the loop. -/
def resolveAnchorConflicts (cfg : MergerConfig) (lhs rhs : Node) :
    Except MergeError (Node × Node) :=
  let lhsAnchors := scanForAnchors lhs []
  let rhsAnchors := scanForAnchors rhs []
  let conflicts := (rhsAnchors.map Prod.fst).filter (fun a => (lookupA lhsAnchors a).isSome)
  resolveLoop cfg lhsAnchors rhsAnchors conflicts (lhs, rhs)

/-- Lookup of a mapping value by key string (Python lhs[key], with key
equality being scalar value equality, anchors ignored). -/
def lookupVal : List (SKey × Node) → String → Option Node
  | [], _ => none
  | (k, v) :: rest, s => if k.val == s then some v else lookupVal rest s

/-- Python assignment lhs[key] = v for a key already present: the stored
key object (and hence its anchor) is kept, only the value changes.  On a
missing key this returns the entries unchanged; the merger only uses it
under a membership guard. -/
def setVal : List (SKey × Node) → String → Node → List (SKey × Node)
  | [], _, _ => []
  | (k, v0) :: rest, s, v =>
    if k.val == s then (k, v) :: rest else (k, v0) :: setVal rest s v

/-- CommentedMap.insert(pos, key, value): insert the entry at the given
position, appending when the position is at or past the end. -/
def insertAt (es : List (SKey × Node)) (pos : Nat) (p : SKey × Node) :
    List (SKey × Node) :=
  es.take pos ++ [p] ++ es.drop pos

/-- The buffer flush of Merger._merge_dicts (lines 194-197): each
buffered entry is inserted at the same position buffer_pos, one
CommentedMap.insert call per entry. -/
def flushBuffer (lhs : List (SKey × Node)) (buffer : List (SKey × Node))
    (pos : Nat) : List (SKey × Node) :=
  buffer.foldl (fun acc p => insertAt acc pos p) lhs

/-- The loop of Merger._merge_simple_lists (lines 234-243): append each
incoming element when append-all is set or when no element of the current
(growing) target list is value-equal to it.  append_list_element is from
yamlpath.func, not under src/; modelled from the spec as appending the
element with its own anchor kept. -/
def mergeSimpleGo (appendAll : Bool) : List Node → List Node → List Node
  | acc, [] => acc
  | acc, e :: rest =>
    mergeSimpleGo appendAll
      (if appendAll || !(acc.any (fun y => valueEq y e)) then acc ++ [e] else acc) rest

/-- Merger._merge_simple_lists (merger.py lines 222-244). -/
def mergeSimpleLists (cfg : MergerConfig) (lhs rhs : Node)
    (coord : NodeCoords) (path : String) : Except MergeError Node :=
  match lhs, rhs with
  | .seq la les, .seq _ res =>
    match cfg.arrayMode coord with
    | .left => .ok lhs
    | .right => .ok rhs
    | m => .ok (.seq la (mergeSimpleGo (m == .all) les res))
  | _, _ => .error (.structuralMismatch path)

/-- The scan of the target list in AoH DEEP mode (lines 269-275): the
first record that is a mapping containing the identity key with a
value-equal entry.  Non-mapping target elements never match (in Python a
string element would be probed with the substring operator and any other
scalar would crash; neither configuration is reachable from well-formed
arrays-of-hashes). -/
def findMatchAoHGo (idKey : String) (v : Node) :
    Nat → List Node → Option (Nat × Node)
  | _, [] => none
  | j, e :: rest =>
    match e with
    | .map _ es =>
      match lookupVal es idKey with
      | some w =>
        if valueEq w v then some (j, e) else findMatchAoHGo idKey v (j + 1) rest
      | none => findMatchAoHGo idKey v (j + 1) rest
    | _ => findMatchAoHGo idKey v (j + 1) rest

mutual

/-- Merger._merge_dicts (merger.py lines 154-220).  At a non-root path a
LEFT or RIGHT hash mode returns one side wholesale; otherwise the deep
merge iterates the incoming entries, buffering new keys and flushing the
buffer whenever a pre-existing key is reached.  A non-mapping side is the
unguarded Python crash, modelled as a structural-mismatch error. -/
def mergeDicts (cfg : MergerConfig) (lhs rhs : Node) (parent : Option Node)
    (parentref : Option ParentRef) (path : String) : Except MergeError Node :=
  match lhs, rhs with
  | .map la les, .map ra res =>
    let coord : NodeCoords := ⟨.map ra res, parent, parentref⟩
    if path.length > 0 ∧ cfg.hashMode coord = .left then .ok (.map la les)
    else if path.length > 0 ∧ cfg.hashMode coord = .right then .ok (.map ra res)
    else (mergeDictsLoop cfg (.map ra res) path res les [] 0).map (fun es => .map la es)
  | _, _ => .error (.structuralMismatch path)
termination_by structural rhs

/-- The entry loop of Merger._merge_dicts (lines 186-218), carrying the
growing target entries, the buffer of pending new entries and buffer_pos,
which the source increments once per incoming entry whether buffered or
not.  On a pre-existing key the buffer is flushed at buffer_pos and the
value is merged by kind and written back at the key's position; on a new
key the pair is buffered; leftover buffered entries are appended at the
end (lhs[b_key] = b_val on absent keys appends in order). -/
def mergeDictsLoop (cfg : MergerConfig) (rhsNode : Node) (path : String) :
    List (SKey × Node) → List (SKey × Node) → List (SKey × Node) → Nat →
    Except MergeError (List (SKey × Node))
  | [], lhs, buffer, _ => .ok (lhs ++ buffer)
  | (k, v) :: rest, lhs, buffer, pos =>
    let pathNext := path ++ "/" ++ escapePathSection k.val
    match lookupVal lhs k.val with
    | some lv =>
      -- Buffered keys are never already present, so flushing cannot
      -- change the value found at k.
      let lhs1 := flushBuffer lhs buffer pos
      (match v with
        | .map va ves => mergeDicts cfg lv (.map va ves) (some rhsNode) (some (.key k)) pathNext
        | .seq va ves => mergeLists cfg lv (.seq va ves) (some rhsNode) (some (.key k)) pathNext
        | _ => .ok v).bind
        (fun merged => mergeDictsLoop cfg rhsNode path rest (setVal lhs1 k.val merged) [] (pos + 1))
    | none =>
      mergeDictsLoop cfg rhsNode path rest lhs (buffer ++ [(k, v)]) (pos + 1)
termination_by structural res _lhs _buf _pos => res

/-- Merger._merge_lists (merger.py lines 289-305): an empty incoming list
leaves the target unchanged; otherwise the kind of the first incoming
element selects the array-of-hashes or the simple-list rule.  The LEFT
and RIGHT head of Merger._merge_arrays_of_hashes (lines 251-255) is
inlined here; every other mode enters the record loop. -/
def mergeLists (cfg : MergerConfig) (lhs rhs : Node) (parent : Option Node)
    (parentref : Option ParentRef) (path : String) : Except MergeError Node :=
  match rhs with
  | .seq _ [] => .ok lhs
  | .seq ra (r0 :: rrest) =>
    let coord : NodeCoords := ⟨.seq ra (r0 :: rrest), parent, parentref⟩
    match r0 with
    | .map ma mes =>
      -- Merger._merge_arrays_of_hashes on (lhs, rhs, coord, path)
      match lhs with
      | .seq la les =>
        match cfg.aohMode coord with
        | .left => .ok (.seq la les)
        | .right => .ok (.seq ra (.map ma mes :: rrest))
        | mode =>
          (mergeAoHGo cfg (.seq ra (.map ma mes :: rrest)) path mode 0 les
            (.map ma mes :: rrest)).map (fun es => .seq la es)
      | _ => .error (.structuralMismatch path)
    | _ => mergeSimpleLists cfg lhs (.seq ra (r0 :: rrest)) coord path
  | _ => .error (.structuralMismatch path)
termination_by structural rhs

/-- The record loop of Merger._merge_arrays_of_hashes (lines 257-286).
In DEEP mode the identity key comes from policy, the incoming record must
be a mapping carrying it (a missing key is the Python KeyError crash,
modelled as a typed error), and the first matching target record is
merged by _merge_dicts at line 272; the source discards the returned
node by rebinding the loop variable, so the target list keeps only the
in-place effect of that call: a DEEP merge mutates the target record in
place and the record becomes the merge result, while a non-root LEFT or
RIGHT hash mode returns a node without mutating the target record, which
therefore stays unchanged (for RIGHT the returned replacement is lost).
Without a match the record is appended.  UNIQUE appends unless some
current target record is value-equal; any other mode appends
unconditionally. -/
def mergeAoHGo (cfg : MergerConfig) (rhsNode : Node) (path : String)
    (mode : AoHMergeOpts) : Nat → List Node → List Node →
    Except MergeError (List Node)
  | _, acc, [] => .ok acc
  | idx, acc, ele :: rest =>
    let pathNext := path ++ "[" ++ toString idx ++ "]"
    let nodeNext : NodeCoords := ⟨ele, some rhsNode, some (.idx idx)⟩
    match mode with
    | .deep =>
      let idKey := cfg.aohMergeKey nodeNext ele
      (match ele with
        | .map ea eles =>
          match lookupVal eles idKey with
          | some rhsKeyValue =>
            match findMatchAoHGo idKey rhsKeyValue 0 acc with
            | some jh =>
              ((mergeDicts cfg jh.2 (.map ea eles) (some rhsNode) (some (.idx idx))
                  pathNext).map (fun r =>
                if pathNext.length > 0 ∧
                    cfg.hashMode (NodeCoords.mk (Node.map ea eles) (some rhsNode)
                      (some (ParentRef.idx idx))) = HashMergeOpts.right
                  then jh.2 else r)).map
                (fun merged => acc.set jh.1 merged)
            | none => .ok (acc ++ [ele])
          | none => .error (.keyError idKey pathNext)
        | _ => .error (.keyError idKey pathNext)).bind
        (fun acc1 => mergeAoHGo cfg rhsNode path mode (idx + 1) acc1 rest)
    | .unique =>
      mergeAoHGo cfg rhsNode path mode (idx + 1)
        (if acc.any (fun y => valueEq y ele) then acc else acc ++ [ele]) rest
    | _ => mergeAoHGo cfg rhsNode path mode (idx + 1) (acc ++ [ele]) rest
termination_by structural _idx _acc res => res

end

/-- Merger.delete_all_comments (merger.py lines 509-529): comment
attachments are not represented in this model, so stripping them is the
identity. -/
def deleteAllComments (d : Node) : Node := d

/-- Merger.merge_with (merger.py lines 430-447): strip comments from the
incoming document, resolve anchor conflicts (which may mutate either
document or abort fatally), prepare the per-path policies (external
config compilation, modelled by the cfg policy functions themselves), and
dispatch on the incoming root kind, merging mappings or lists into the
target; any other incoming root leaves the target untouched. -/
def mergeWith (cfg : MergerConfig) (lhs rhs : Node) : Except MergeError Node :=
  (resolveAnchorConflicts cfg lhs (deleteAllComments rhs)).bind (fun st =>
    match st.2 with
    | .map _ _ => mergeDicts cfg st.1 st.2 none none ""
    | .seq _ _ => mergeLists cfg st.1 st.2 none none ""
    | _ => .ok st.1)

/-- A concrete environment for evaluations: DEEP mapping and
array-of-hashes modes, append-all simple lists, identity key id, the
default ABORT anchor mode, a resolver that never resolves, and a fixed
hash rendering. -/
def cfgDeep : MergerConfig := {
  hashMode := fun _ => .deep, arrayMode := fun _ => .all,
  aohMode := fun _ => .deep, aohMergeKey := fun _ _ => "id",
  anchorMode := .stop, resolver := fun _ _ => none, hashString := fun _ => "1" }

/-- cfgDeep with RIGHT mapping mode at every non-root coordinate. -/
def cfgHashRight : MergerConfig := { cfgDeep with hashMode := fun _ => .right }

/-- cfgDeep with UNIQUE simple-list mode. -/
def cfgUnique : MergerConfig := { cfgDeep with arrayMode := fun _ => .unique }

/-- cfgDeep with KEEP_LEFT anchor-conflict mode and a resolver that
yields the target-side anchored scalar for any non-null path and fails on
a null path (as Processor.get_nodes does when handed no path). -/
def cfgKeepLeft : MergerConfig := { cfgDeep with
  anchorMode := .left,
  resolver := fun _ p => p.map (fun _ => Node.scalar (some "A") "x") }

/-- cfgDeep with KEEP_RIGHT anchor-conflict mode and a resolver that
yields the incoming-side anchored scalar for any non-null path. -/
def cfgKeepRight : MergerConfig := { cfgDeep with
  anchorMode := .right,
  resolver := fun _ p => p.map (fun _ => Node.scalar (some "A") "y") }

/-- cfgDeep with RENAME anchor-conflict mode. -/
def cfgRename : MergerConfig := { cfgDeep with anchorMode := .rename }

/-- The target record {id:1, v:x} of the array-of-hashes example. -/
def aohTargetRec : Node :=
  Node.map none [(⟨"id", none⟩, Node.scalar none "1"), (⟨"v", none⟩, Node.scalar none "x")]

/-- The incoming record {id:1, v:y} of the array-of-hashes example. -/
def aohIncomingRec1 : Node :=
  Node.map none [(⟨"id", none⟩, Node.scalar none "1"), (⟨"v", none⟩, Node.scalar none "y")]

/-- The incoming record {id:2, v:z} of the array-of-hashes example. -/
def aohIncomingRec2 : Node :=
  Node.map none [(⟨"id", none⟩, Node.scalar none "2"), (⟨"v", none⟩, Node.scalar none "z")]

/-! ### Lemmas: the anchor dictionary and the anchor scan -/

theorem lookupA_setA (m : AnchorMap) (k : String) (v : Node) (n : String) :
    lookupA (setA m k v) n = if k = n then some v else lookupA m n := by
  induction m with
  | nil => by_cases h : k = n <;> simp [setA, lookupA, h]
  | cons p rest ih =>
    obtain ⟨k0, v0⟩ := p
    by_cases h0 : k0 = k
    · subst h0
      by_cases h : k0 = n <;> simp [setA, lookupA, h]
    · by_cases h : k0 = n
      · subst h
        have : ¬ k = k0 := fun hc => h0 hc.symm
        simp [setA, lookupA, h0, this]
      · simp [setA, lookupA, h0, h, ih]

theorem foldSet_append (m : AnchorMap) (l1 l2 : List (String × Node)) :
    foldSet m (l1 ++ l2) = foldSet (foldSet m l1) l2 := by
  simp [foldSet, List.foldl_append]

theorem lookupA_foldSet (l : List (String × Node)) (m : AnchorMap) (n : String) :
    lookupA (foldSet m l) n =
      (match l.reverse.find? (fun p => p.1 == n) with
       | some p => some p.2
       | none => lookupA m n) := by
  induction l generalizing m with
  | nil => simp [foldSet]
  | cons p rest ih =>
    obtain ⟨k, v⟩ := p
    have hstep : foldSet m ((k, v) :: rest) = foldSet (setA m k v) rest := rfl
    rw [hstep, ih]
    have hrev : ((k, v) :: rest).reverse = rest.reverse ++ [(k, v)] := by simp
    rw [hrev, List.find?_append]
    cases hf : rest.reverse.find? (fun p => p.1 == n) with
    | some p => simp [hf]
    | none =>
      by_cases h : k = n
      · simp [hf, h, lookupA_setA, List.find?]
      · have hb : (k == n) = false := by simp [h]
        simp [hf, h, lookupA_setA, List.find?, hb]

mutual

theorem scanForAnchors_eq : ∀ (dom : Node) (acc : AnchorMap),
    scanForAnchors dom acc = foldSet acc (scanRecords dom)
  | .map a entries, acc => by
    simpa [scanForAnchors, scanRecords] using scanEntries_eq entries acc
  | .seq a elems, acc => by
    simpa [scanForAnchors, scanRecords] using scanElems_eq elems acc
  | .scalar (some a) v, acc => by simp [scanForAnchors, scanRecords, foldSet]
  | .scalar none v, acc => by simp [scanForAnchors, scanRecords, foldSet]

theorem scanEntries_eq : ∀ (es : List (SKey × Node)) (acc : AnchorMap),
    scanEntries es acc = foldSet acc (scanRecordsEntries es)
  | [], acc => by simp [scanEntries, scanRecordsEntries, foldSet]
  | (k, v) :: rest, acc => by
    simp only [scanEntries, scanRecordsEntries, foldSet_append]
    rw [scanEntries_eq rest]
    congr 1
    cases v with
    | scalar va vv =>
      cases hk : k.anchor <;> cases va <;>
        simp [hk, Node.anchorOf, foldSet]
    | seq va es2 =>
      rw [scanForAnchors_eq (.seq va es2)]
      cases hk : k.anchor <;> cases va <;>
        simp [hk, Node.anchorOf, foldSet]
    | map va es2 =>
      rw [scanForAnchors_eq (.map va es2)]
      cases hk : k.anchor <;> cases va <;>
        simp [hk, Node.anchorOf, foldSet]

theorem scanElems_eq : ∀ (es : List Node) (acc : AnchorMap),
    scanElems es acc = foldSet acc (scanRecordsElems es)
  | [], acc => by simp [scanElems, scanRecordsElems, foldSet]
  | e :: rest, acc => by
    simp only [scanElems, scanRecordsElems, foldSet_append]
    rw [scanElems_eq rest, scanForAnchors_eq e]

end

/-! ### Lemmas: value equality -/

mutual

theorem valueEq_refl : ∀ (n : Node), valueEq n n = true
  | .scalar a v => by simp [valueEq]
  | .seq a es => by simpa [valueEq] using valueEqList_refl es
  | .map a es => by simpa [valueEq] using valueEqEntries_refl es

theorem valueEqList_refl : ∀ (l : List Node), valueEqList l l = true
  | [] => by simp [valueEqList]
  | e :: rest => by simp [valueEqList, valueEq_refl e, valueEqList_refl rest]

theorem valueEqEntries_refl : ∀ (l : List (SKey × Node)), valueEqEntries l l = true
  | [] => by simp [valueEqEntries]
  | (k, v) :: rest => by
    simp [valueEqEntries, valueEq_refl v, valueEqEntries_refl rest]

end

/-! ### Lemmas: anchor renaming rewrites every visited occurrence -/

mutual

theorem anchorsInside_rename : ∀ (d : Node) (a f : String),
    anchorsInside (renameAnchor d a f) = (anchorsInside d).map (substAnchor a f)
  | .scalar an v, a, f => by
    by_cases h : an = some a
    · simp [renameAnchor, anchorsInside, substAnchor, h]
    · cases an with
      | none => simp [renameAnchor, anchorsInside, h]
      | some b =>
        have hb : ¬ b = a := fun hc => h (by rw [hc])
        simp [renameAnchor, anchorsInside, substAnchor, h, hb]
  | .seq an es, a, f => by
    simpa [renameAnchor, anchorsInside] using anchorsElems_rename es a f
  | .map an es, a, f => by
    simpa [renameAnchor, anchorsInside] using anchorsEntries_rename es a f

theorem anchorsEntries_rename : ∀ (es : List (SKey × Node)) (a f : String),
    anchorsEntries (renameAnchorEntries es a f) = (anchorsEntries es).map (substAnchor a f)
  | [], a, f => by simp [renameAnchorEntries, anchorsEntries]
  | (k, v) :: rest, a, f => by
    simp only [renameAnchorEntries, anchorsEntries, List.map_append]
    rw [anchorsEntries_rename rest, anchorsVal_rename v]
    by_cases hk : k.anchor = some a
    · simp [hk, substAnchor]
    · cases hko : k.anchor with
      | none => simp [hk, hko]
      | some b =>
        have hb : ¬ b = a := fun hc => hk (by rw [hko, hc])
        simp [hk, hko, substAnchor, hb]

theorem anchorsVal_rename : ∀ (v : Node) (a f : String),
    anchorsVal (if v.anchorOf = some a then (renameAnchor v a f).withAnchor f
                else renameAnchor v a f) = (anchorsVal v).map (substAnchor a f)
  | .scalar an vv, a, f => by
    by_cases h : an = some a
    · simp [Node.anchorOf, renameAnchor, Node.withAnchor, anchorsVal, substAnchor, h]
    · cases an with
      | none => simp [Node.anchorOf, renameAnchor, anchorsVal, h]
      | some b =>
        have hb : ¬ b = a := fun hc => h (by rw [hc])
        simp [Node.anchorOf, renameAnchor, anchorsVal, substAnchor, h, hb]
  | .seq an es, a, f => by
    by_cases h : an = some a
    · simp [Node.anchorOf, renameAnchor, Node.withAnchor, anchorsVal, h,
        anchorsElems_rename es a f, substAnchor]
    · cases an with
      | none =>
        simp [Node.anchorOf, renameAnchor, anchorsVal, h, anchorsElems_rename es a f]
      | some b =>
        have hb : ¬ b = a := fun hc => h (by rw [hc])
        simp [Node.anchorOf, renameAnchor, anchorsVal, h,
          anchorsElems_rename es a f, substAnchor, hb]
  | .map an es, a, f => by
    by_cases h : an = some a
    · simp [Node.anchorOf, renameAnchor, Node.withAnchor, anchorsVal, h,
        anchorsEntries_rename es a f, substAnchor]
    · cases an with
      | none =>
        simp [Node.anchorOf, renameAnchor, anchorsVal, h, anchorsEntries_rename es a f]
      | some b =>
        have hb : ¬ b = a := fun hc => h (by rw [hc])
        simp [Node.anchorOf, renameAnchor, anchorsVal, h,
          anchorsEntries_rename es a f, substAnchor, hb]

theorem anchorsElems_rename : ∀ (es : List Node) (a f : String),
    anchorsElems (renameAnchorElems es a f) = (anchorsElems es).map (substAnchor a f)
  | [], a, f => by simp [renameAnchorElems, anchorsElems]
  | e :: rest, a, f => by
    simp only [renameAnchorElems, anchorsElems, List.map_append]
    rw [anchorsElems_rename rest, anchorsInside_rename e]

end

/-! ### Lemmas: unique-anchor calculation -/

theorem calcGo_append (f : String → String) :
    ∀ (fuel : Nat) (a : String) (known : List String),
      ∃ s, calcUniqueAnchorGo f fuel a known = a ++ s
  | 0, a, known => ⟨"", by simp [calcUniqueAnchorGo]⟩
  | fuel + 1, a, known => by
    by_cases h : a ∈ known
    · obtain ⟨s, hs⟩ := calcGo_append f fuel (a ++ "_" ++ f a) known
      refine ⟨"_" ++ f a ++ s, ?_⟩
      have hstep : calcUniqueAnchorGo f (fuel + 1) a known =
          calcUniqueAnchorGo f fuel (a ++ "_" ++ f a) known := by
        simp [calcUniqueAnchorGo, h]
      rw [hstep, hs]
      simp [String.append_assoc]
    · exact ⟨"", by simp [calcUniqueAnchorGo, h]⟩

theorem filter_length_mono {p q : String → Bool} (l : List String)
    (h : ∀ x, p x = true → q x = true) :
    (l.filter p).length ≤ (l.filter q).length := by
  induction l with
  | nil => simp
  | cons y rest ih =>
    by_cases hp : p y = true
    · simp [List.filter_cons, hp, h y hp]
      omega
    · by_cases hq : q y = true <;>
        simp [List.filter_cons, hp, hq] <;> omega

theorem countGe_strict (l : List String) (a b : String)
    (hm : a ∈ l) (hlen : a.length < b.length) :
    (l.filter (fun x => b.length ≤ x.length)).length <
      (l.filter (fun x => a.length ≤ x.length)).length := by
  induction l with
  | nil => simp at hm
  | cons y rest ih =>
    have hmono : (rest.filter (fun x => b.length ≤ x.length)).length ≤
        (rest.filter (fun x => a.length ≤ x.length)).length := by
      refine filter_length_mono rest (fun x hx => ?_)
      simp only [decide_eq_true_eq] at hx ⊢
      omega
    rcases List.mem_cons.mp hm with hya | harest
    · subst hya
      have hnb : ¬ (b.length ≤ a.length) := by omega
      simp [List.filter_cons, hnb]
      omega
    · by_cases hbl : b.length ≤ y.length
      · have hal : a.length ≤ y.length := by omega
        simp [List.filter_cons, hbl, hal]
        exact ih harest
      · by_cases hal : a.length ≤ y.length
        · simp [List.filter_cons, hbl, hal]
          have := ih harest
          omega
        · simp [List.filter_cons, hbl, hal]
          exact ih harest

theorem calcGo_not_mem (f : String → String) :
    ∀ (fuel : Nat) (a : String) (known : List String),
      (known.filter (fun x => a.length ≤ x.length)).length < fuel →
      calcUniqueAnchorGo f fuel a known ∉ known
  | 0, a, known => by omega
  | fuel + 1, a, known => by
    intro h
    by_cases hm : a ∈ known
    · have hlen : a.length < (a ++ "_" ++ f a).length := by
        have h1 : "_".length = 1 := rfl
        simp [String.length_append, h1]
        omega
      have hdec := countGe_strict known a (a ++ "_" ++ f a) hm hlen
      simp only [calcUniqueAnchorGo, if_pos hm]
      exact calcGo_not_mem f fuel (a ++ "_" ++ f a) known (by omega)
    · simp only [calcUniqueAnchorGo, if_neg hm]
      exact hm

/-- The fresh name produced by Merger._calc_unique_anchor is absent from
the known-anchor set, for any hash rendering. -/
theorem calcUniqueAnchor_not_mem (f : String → String) (a : String)
    (known : List String) : calcUniqueAnchor f a known ∉ known := by
  have hle : (known.filter (fun x => a.length ≤ x.length)).length ≤ known.length :=
    List.length_filter_le _ known
  exact calcGo_not_mem f (known.length + 1) a known (by omega)

/-- The fresh name extends the colliding name: it is obtained by
appending (possibly repeatedly) a suffix to it. -/
theorem calcUniqueAnchor_append (f : String → String) (a : String)
    (known : List String) : ∃ s, calcUniqueAnchor f a known = a ++ s :=
  calcGo_append f (known.length + 1) a known

/-! ### Lemmas: the anchor-conflict loop -/

theorem resolveLoop_error_of_mem (cfg : MergerConfig) (lA rA : AnchorMap)
    (l : List String) (a : String) (hmem : a ∈ l)
    (herr : ∀ st, ∃ e, resolveStep cfg lA rA st a = .error e) :
    ∀ st, ∃ e, resolveLoop cfg lA rA l st = .error e := by
  induction l with
  | nil => simp at hmem
  | cons b rest ih =>
    intro st
    cases hs : resolveStep cfg lA rA st b with
    | error e => exact ⟨e, by simp [resolveLoop, hs, Except.bind]⟩
    | ok st2 =>
      rcases List.mem_cons.mp hmem with hab | har
      · subst hab
        obtain ⟨e, he⟩ := herr st
        rw [he] at hs
        cases hs
      · obtain ⟨e, he⟩ := ih har st2
        exact ⟨e, by simp [resolveLoop, hs, Except.bind, he]⟩

theorem mergeWith_error_of_resolve (cfg : MergerConfig) (lhs rhs : Node)
    (e : MergeError) (h : resolveAnchorConflicts cfg lhs rhs = .error e) :
    mergeWith cfg lhs rhs = .error e := by
  simp [mergeWith, deleteAllComments, h, Except.bind]

theorem resolveStep_ok_rhs (cfg : MergerConfig) (lA rA : AnchorMap)
    (st : Node × Node) (a : String) (st2 : Node × Node)
    (h : resolveStep cfg lA rA st a = .ok st2) :
    st2.2 = st.2 ∨ (∃ f, st2.2 = renameAnchor st.2 a f) ∨
      (∃ n, st2.2 = recursiveAnchorReplace st.2 a n) := by
  unfold resolveStep at h
  split at h
  case h_2 => cases h; exact Or.inl rfl
  case h_1 _ primeAlias readerAlias _ _ =>
    split at h
    · cases h
    · cases h
    · split at h
      · cases h; exact Or.inl rfl
      · split at h
        · cases h
          exact Or.inr (Or.inl ⟨_, rfl⟩)
        · unfold overwriteAliasedValues at h
          split at h
          · cases h
          · simp only [Except.map] at h
            cases h
            exact Or.inr (Or.inr ⟨_, rfl⟩)
        · unfold overwriteAliasedValues at h
          split at h
          · cases h
          · simp only [Except.map] at h
            cases h
            exact Or.inl rfl
        · cases h

theorem renameAnchor_scalar (a0 : Option String) (v0 : String) (a f : String) :
    ∃ a1, renameAnchor (.scalar a0 v0) a f = Node.scalar a1 v0 := by
  by_cases h : a0 = some a <;> simp [renameAnchor, h]

theorem recursiveAnchorReplace_scalar (a0 : Option String) (v0 : String)
    (a : String) (n : Node) :
    recursiveAnchorReplace (.scalar a0 v0) a n = Node.scalar a0 v0 := rfl

theorem resolveLoop_ok_rhs_scalar (cfg : MergerConfig) (lA rA : AnchorMap) :
    ∀ (l : List String) (st st2 : Node × Node),
      resolveLoop cfg lA rA l st = .ok st2 →
      (∃ a0 v0, st.2 = Node.scalar a0 v0) →
      ∃ a0 v0, st2.2 = Node.scalar a0 v0 := by
  intro l
  induction l with
  | nil =>
    intro st st2 h hsc
    simp [resolveLoop] at h
    rw [← h]
    exact hsc
  | cons b rest ih =>
    intro st st2 h hsc
    cases hs : resolveStep cfg lA rA st b with
    | error e => simp [resolveLoop, hs, Except.bind] at h
    | ok st1 =>
      simp only [resolveLoop, hs, Except.bind] at h
      refine ih st1 st2 h ?_
      obtain ⟨a0, v0, hv⟩ := hsc
      rcases resolveStep_ok_rhs cfg lA rA st b st1 hs with h1 | ⟨f, h1⟩ | ⟨n, h1⟩
      · exact ⟨a0, v0, by rw [h1, hv]⟩
      · rw [hv] at h1
        obtain ⟨a1, h2⟩ := renameAnchor_scalar a0 v0 b f
        exact ⟨a1, v0, by rw [h1, h2]⟩
      · rw [hv] at h1
        exact ⟨a0, v0, by rw [h1, recursiveAnchorReplace_scalar]⟩

theorem lookupA_isSome_mem (m : AnchorMap) (a : String)
    (h : (lookupA m a).isSome = true) : a ∈ m.map Prod.fst := by
  induction m with
  | nil => simp [lookupA] at h
  | cons p rest ih =>
    obtain ⟨k0, v0⟩ := p
    by_cases hk : k0 = a
    · simp [hk]
    · have hb : (k0 == a) = false := by simp [hk]
      simp only [lookupA, hb, Bool.false_eq_true, if_false] at h
      simp [ih h]

/-! ### C2: container-valued anchor conflicts abort fatally -/

/-- C2: during anchor-conflict resolution, an anchor name defined in both
documents whose target-side anchored node is a mapping or a sequence
makes the merge fail fatally: its own resolve step errors before any
value comparison or strategy dispatch, and the whole merge errors in the
conflict-resolution phase, before any structural merging.  logger.error
fatality is modelled from the spec (ConsolePrinter is not under src/). -/
theorem c2_container_anchor_aborts (cfg : MergerConfig) (lhs rhs : Node)
    (a : String) (p : Node)
    (hl : lookupA (scanForAnchors lhs []) a = some p)
    (hr : (lookupA (scanForAnchors rhs []) a).isSome = true)
    (hp : (∃ x y, p = Node.map x y) ∨ (∃ x y, p = Node.seq x y)) :
    (∃ e, resolveAnchorConflicts cfg lhs rhs = .error e) ∧
    (∃ e, mergeWith cfg lhs rhs = .error e) := by
  obtain ⟨r, hro⟩ := Option.isSome_iff_exists.mp hr
  have herr : ∀ st, ∃ e,
      resolveStep cfg (scanForAnchors lhs []) (scanForAnchors rhs []) st a = .error e := by
    intro st
    rcases hp with ⟨x, y, hpe⟩ | ⟨x, y, hpe⟩
    · subst hpe
      exact ⟨.notImplementedDict, by simp [resolveStep, hl, hro]⟩
    · subst hpe
      exact ⟨.notImplementedList, by simp [resolveStep, hl, hro]⟩
  have hmem : a ∈ ((scanForAnchors rhs []).map Prod.fst).filter
      (fun x => (lookupA (scanForAnchors lhs []) x).isSome) := by
    refine List.mem_filter.mpr ⟨lookupA_isSome_mem _ a hr, ?_⟩
    simp [hl]
  obtain ⟨e, he⟩ := resolveLoop_error_of_mem cfg (scanForAnchors lhs [])
    (scanForAnchors rhs []) _ a hmem herr (lhs, rhs)
  have hres : resolveAnchorConflicts cfg lhs rhs = .error e := by
    simpa [resolveAnchorConflicts] using he
  exact ⟨⟨e, hres⟩, ⟨e, mergeWith_error_of_resolve cfg lhs rhs e hres⟩⟩

/-- Witness for C2 at a concrete input: both documents anchor a sequence
under the name B with different contents; the merge aborts. -/
theorem c2_container_anchor_aborts_witness :
    (∃ e, resolveAnchorConflicts cfgDeep
      (Node.map none [(⟨"h", none⟩, Node.seq (some "B") [Node.scalar none "1"])])
      (Node.map none [(⟨"h2", none⟩, Node.seq (some "B") [Node.scalar none "2"])]) = .error e) ∧
    (∃ e, mergeWith cfgDeep
      (Node.map none [(⟨"h", none⟩, Node.seq (some "B") [Node.scalar none "1"])])
      (Node.map none [(⟨"h2", none⟩, Node.seq (some "B") [Node.scalar none "2"])]) = .error e) :=
  c2_container_anchor_aborts cfgDeep _ _ "B"
    (Node.seq (some "B") [Node.scalar none "1"]) rfl rfl
    (Or.inr ⟨some "B", [Node.scalar none "1"], rfl⟩)

/-! ### C6: default ABORT mode fails fatally on differing scalar anchors -/

/-- C6: with the anchor-conflict mode unset (the spec-modelled default
STOP), an anchor name defined in both documents with differing scalar
values makes its resolve step fail with an error carrying that anchor
name, and the whole merge errors during conflict resolution, before any
structural mutation of the accumulated target. -/
theorem c6_abort_reports_anchor (cfg : MergerConfig) (lhs rhs : Node)
    (a : String) (pa ra : Option String) (pv rv : String)
    (hmode : cfg.anchorMode = .stop)
    (hl : lookupA (scanForAnchors lhs []) a = some (Node.scalar pa pv))
    (hr : lookupA (scanForAnchors rhs []) a = some (Node.scalar ra rv))
    (hne : pv ≠ rv) :
    (∀ st, resolveStep cfg (scanForAnchors lhs []) (scanForAnchors rhs []) st a =
      .error (.anchorConflict a)) ∧
    (∃ e, mergeWith cfg lhs rhs = .error e) := by
  have hbeq : (pv == rv) = false := by simp [hne]
  have herr : ∀ st, resolveStep cfg (scanForAnchors lhs [])
      (scanForAnchors rhs []) st a = .error (.anchorConflict a) := by
    intro st
    simp [resolveStep, hl, hr, valueEq, hbeq, hmode]
  have hmem : a ∈ ((scanForAnchors rhs []).map Prod.fst).filter
      (fun x => (lookupA (scanForAnchors lhs []) x).isSome) := by
    refine List.mem_filter.mpr ⟨lookupA_isSome_mem _ a (by simp [hr]), ?_⟩
    simp [hl]
  obtain ⟨e, he⟩ := resolveLoop_error_of_mem cfg (scanForAnchors lhs [])
    (scanForAnchors rhs []) _ a hmem (fun st => ⟨_, herr st⟩) (lhs, rhs)
  have hres : resolveAnchorConflicts cfg lhs rhs = .error e := by
    simpa [resolveAnchorConflicts] using he
  exact ⟨herr, ⟨e, mergeWith_error_of_resolve cfg lhs rhs e hres⟩⟩

/-- Witness for C6 at a concrete input: anchor A carries x in the target
and y in the incoming document; the default-mode merge aborts. -/
theorem c6_abort_reports_anchor_witness :
    resolveStep cfgDeep
      (scanForAnchors (Node.map none [(⟨"k", none⟩, Node.scalar (some "A") "x")]) [])
      (scanForAnchors (Node.map none [(⟨"j", none⟩, Node.scalar (some "A") "y")]) [])
      (Node.map none [(⟨"k", none⟩, Node.scalar (some "A") "x")],
       Node.map none [(⟨"j", none⟩, Node.scalar (some "A") "y")]) "A" =
      .error (.anchorConflict "A") ∧
    (∃ e, mergeWith cfgDeep
      (Node.map none [(⟨"k", none⟩, Node.scalar (some "A") "x")])
      (Node.map none [(⟨"j", none⟩, Node.scalar (some "A") "y")]) = .error e) :=
  ⟨(c6_abort_reports_anchor cfgDeep
      (Node.map none [(⟨"k", none⟩, Node.scalar (some "A") "x")])
      (Node.map none [(⟨"j", none⟩, Node.scalar (some "A") "y")])
      "A" (some "A") (some "A") "x" "y" rfl rfl rfl (by decide)).1
    (Node.map none [(⟨"k", none⟩, Node.scalar (some "A") "x")],
     Node.map none [(⟨"j", none⟩, Node.scalar (some "A") "y")]),
   (c6_abort_reports_anchor cfgDeep
      (Node.map none [(⟨"k", none⟩, Node.scalar (some "A") "x")])
      (Node.map none [(⟨"j", none⟩, Node.scalar (some "A") "y")])
      "A" (some "A") (some "A") "x" "y" rfl rfl rfl (by decide)).2⟩

/-! ### C4: RENAME derives a fresh name and rewrites the incoming document -/

/-- C4: under RENAME, the resolve step for a conflicting scalar anchor
leaves the target untouched and replaces the incoming document by the
renamed one, where the fresh name is derived by repeatedly appending a
suffix to the colliding name until it is absent from the union of the two
scanned anchor-name sets; the rename rewrites exactly the occurrences of
the old name (every visited occurrence list maps old to fresh), so the
old name no longer occurs in the rewritten incoming document. -/
theorem c4_rename_step (cfg : MergerConfig) (lhs rhs : Node) (a : String)
    (pa : Option String) (pv : String) (r : Node)
    (hmode : cfg.anchorMode = .rename)
    (hl : lookupA (scanForAnchors lhs []) a = some (Node.scalar pa pv))
    (hr : lookupA (scanForAnchors rhs []) a = some r)
    (hne : valueEq (Node.scalar pa pv) r = false) :
    ∀ st : Node × Node,
      resolveStep cfg (scanForAnchors lhs []) (scanForAnchors rhs []) st a =
        .ok (st.1, renameAnchor st.2 a (calcUniqueAnchor cfg.hashString a
          ((scanForAnchors lhs []).map Prod.fst ++ (scanForAnchors rhs []).map Prod.fst))) ∧
      calcUniqueAnchor cfg.hashString a
        ((scanForAnchors lhs []).map Prod.fst ++ (scanForAnchors rhs []).map Prod.fst) ∉
        ((scanForAnchors lhs []).map Prod.fst ++ (scanForAnchors rhs []).map Prod.fst) ∧
      a ≠ calcUniqueAnchor cfg.hashString a
        ((scanForAnchors lhs []).map Prod.fst ++ (scanForAnchors rhs []).map Prod.fst) ∧
      (∃ s, calcUniqueAnchor cfg.hashString a
        ((scanForAnchors lhs []).map Prod.fst ++ (scanForAnchors rhs []).map Prod.fst) = a ++ s) ∧
      anchorsInside (renameAnchor st.2 a (calcUniqueAnchor cfg.hashString a
          ((scanForAnchors lhs []).map Prod.fst ++ (scanForAnchors rhs []).map Prod.fst))) =
        (anchorsInside st.2).map (substAnchor a (calcUniqueAnchor cfg.hashString a
          ((scanForAnchors lhs []).map Prod.fst ++ (scanForAnchors rhs []).map Prod.fst))) ∧
      a ∉ anchorsInside (renameAnchor st.2 a (calcUniqueAnchor cfg.hashString a
          ((scanForAnchors lhs []).map Prod.fst ++ (scanForAnchors rhs []).map Prod.fst))) := by
  intro st
  set known := (scanForAnchors lhs []).map Prod.fst ++ (scanForAnchors rhs []).map Prod.fst
    with hknown
  set fresh := calcUniqueAnchor cfg.hashString a known with hfresh
  have hnotmem : fresh ∉ known := calcUniqueAnchor_not_mem cfg.hashString a known
  have hamem : a ∈ known := by
    refine List.mem_append.mpr (Or.inl ?_)
    exact lookupA_isSome_mem _ a (by simp [hl])
  have hane : a ≠ fresh := fun hc => hnotmem (hc ▸ hamem)
  have hmapeq : anchorsInside (renameAnchor st.2 a fresh) =
      (anchorsInside st.2).map (substAnchor a fresh) := anchorsInside_rename st.2 a fresh
  refine ⟨?_, hnotmem, hane, calcUniqueAnchor_append cfg.hashString a known, hmapeq, ?_⟩
  · simp [resolveStep, hl, hr, hne, hmode, hfresh, hknown]
  · rw [hmapeq]
    intro hmem
    obtain ⟨x, _, hx⟩ := List.mem_map.mp hmem
    by_cases hxa : x = a
    · rw [hxa] at hx
      simp [substAnchor] at hx
      exact hane hx.symm
    · simp [substAnchor, hxa] at hx

/-- Witness for C4 at a concrete input: anchors A with values x and y
conflict under RENAME; the incoming document is rewritten with the fresh
name A_1 and the target is untouched. -/
theorem c4_rename_step_witness :
    resolveStep cfgRename
      (scanForAnchors (Node.map none [(⟨"k", none⟩, Node.scalar (some "A") "x")]) [])
      (scanForAnchors (Node.map none [(⟨"j", none⟩, Node.scalar (some "A") "y")]) [])
      (Node.map none [(⟨"k", none⟩, Node.scalar (some "A") "x")],
       Node.map none [(⟨"j", none⟩, Node.scalar (some "A") "y")]) "A" =
      .ok (Node.map none [(⟨"k", none⟩, Node.scalar (some "A") "x")],
        renameAnchor (Node.map none [(⟨"j", none⟩, Node.scalar (some "A") "y")]) "A"
          (calcUniqueAnchor cfgRename.hashString "A"
            ((scanForAnchors (Node.map none [(⟨"k", none⟩, Node.scalar (some "A") "x")]) []).map Prod.fst ++
             (scanForAnchors (Node.map none [(⟨"j", none⟩, Node.scalar (some "A") "y")]) []).map Prod.fst))) :=
  (c4_rename_step cfgRename
    (Node.map none [(⟨"k", none⟩, Node.scalar (some "A") "x")])
    (Node.map none [(⟨"j", none⟩, Node.scalar (some "A") "y")])
    "A" (some "A") "x" (Node.scalar (some "A") "y") rfl rfl rfl rfl
    (Node.map none [(⟨"k", none⟩, Node.scalar (some "A") "x")],
     Node.map none [(⟨"j", none⟩, Node.scalar (some "A") "y")])).1

/-! ### C9: UNIQUE simple-list merge -/

theorem mergeSimpleGo_unique (res : List Node) :
    ∀ acc : List Node, ∃ t, mergeSimpleGo false acc res = acc ++ t ∧
      t.Sublist res ∧
      (∀ x ∈ t, acc.any (fun y => valueEq y x) = false) ∧
      (∀ e ∈ res, ∃ y ∈ acc ++ t, valueEq y e = true) := by
  induction res with
  | nil => exact fun acc => ⟨[], by simp [mergeSimpleGo]⟩
  | cons e rest ih =>
    intro acc
    by_cases h : acc.any (fun y => valueEq y e) = true
    · obtain ⟨t, h1, h2, h3, h4⟩ := ih acc
      refine ⟨t, ?_, h2.cons e, h3, ?_⟩
      · simpa [mergeSimpleGo, h] using h1
      · intro e2 he2
        rcases List.mem_cons.mp he2 with he | hr
        · subst he
          obtain ⟨y, hy, hv⟩ := List.any_eq_true.mp h
          exact ⟨y, List.mem_append_left _ hy, hv⟩
        · exact h4 e2 hr
    · have hfalse : acc.any (fun y => valueEq y e) = false :=
        Bool.eq_false_iff.mpr h
      obtain ⟨t, h1, h2, h3, h4⟩ := ih (acc ++ [e])
      refine ⟨e :: t, ?_, h2.cons₂ e, ?_, ?_⟩
      · have hstep : mergeSimpleGo false acc (e :: rest) =
            mergeSimpleGo false (acc ++ [e]) rest := by
          simp [mergeSimpleGo, hfalse]
        rw [hstep, h1]
        simp
      · intro x hx
        rcases List.mem_cons.mp hx with hxe | hxt
        · subst hxe
          exact hfalse
        · have := h3 x hxt
          simp only [List.any_append, Bool.or_eq_false_iff] at this
          exact this.1
      · intro e2 he2
        rcases List.mem_cons.mp he2 with he | hr
        · subst he
          exact ⟨e2, by simp, valueEq_refl e2⟩
        · obtain ⟨y, hy, hv⟩ := h4 e2 hr
          refine ⟨y, ?_, hv⟩
          simpa using hy

/-- C9: in a simple-list merge in UNIQUE mode, the result is the target
followed by a suffix of kept incoming elements: the suffix preserves the
incoming order and the incoming node objects themselves (so each kept
element retains its own anchor), no kept element is value-equal to any
original target element, and every incoming element is value-equal to
some element of the result (so an element value-equal to an existing
target element is dropped rather than appended again). -/
theorem c9_unique_append (cfg : MergerConfig) (coord : NodeCoords)
    (path : String) (la ra : Option String) (les res : List Node)
    (hmode : cfg.arrayMode coord = .unique) :
    ∃ t, mergeSimpleLists cfg (.seq la les) (.seq ra res) coord path =
        .ok (.seq la (les ++ t)) ∧
      t.Sublist res ∧
      (∀ x ∈ t, ∀ y ∈ les, valueEq y x = false) ∧
      (∀ e ∈ res, ∃ y ∈ les ++ t, valueEq y e = true) := by
  obtain ⟨t, h1, h2, h3, h4⟩ := mergeSimpleGo_unique res les
  refine ⟨t, ?_, h2, ?_, h4⟩
  · have hba : (ArrayMergeOpts.unique == ArrayMergeOpts.all) = false := rfl
    simp [mergeSimpleLists, hmode, hba, h1]
  · intro x hx y hy
    have := h3 x hx
    exact Bool.eq_false_iff.mpr (List.any_eq_false.mp this y hy)

/-- Witness for C9 at a concrete input: [a, b] merged with [b, c] in
UNIQUE mode. -/
theorem c9_unique_append_witness :
    ∃ t, mergeSimpleLists cfgUnique
        (.seq none [Node.scalar none "a", Node.scalar none "b"])
        (.seq none [Node.scalar none "b", Node.scalar none "c"])
        ⟨Node.scalar none "", none, none⟩ "" =
        .ok (.seq none ([Node.scalar none "a", Node.scalar none "b"] ++ t)) ∧
      t.Sublist [Node.scalar none "b", Node.scalar none "c"] ∧
      (∀ x ∈ t, ∀ y ∈ [Node.scalar none "a", Node.scalar none "b"], valueEq y x = false) ∧
      (∀ e ∈ [Node.scalar none "b", Node.scalar none "c"],
        ∃ y ∈ [Node.scalar none "a", Node.scalar none "b"] ++ t, valueEq y e = true) :=
  c9_unique_append cfgUnique ⟨Node.scalar none "", none, none⟩ "" none none
    [Node.scalar none "a", Node.scalar none "b"]
    [Node.scalar none "b", Node.scalar none "c"] rfl

/-! ### C8: DEEP mapping-merge ordering examples -/

/-- C8: merging {a:1,b:2} with {b:3,c:4} yields {a:1,b:3,c:4} in key
order [a,b,c], with the merged value written back at the key's original
target position, and merging {z:1} with {a:2,b:3} yields key order
[z,a,b]. -/
theorem c8_deep_mapping_merge_examples :
    mergeWith cfgDeep
      (Node.map none [(⟨"a", none⟩, Node.scalar none "1"),
        (⟨"b", none⟩, Node.scalar none "2")])
      (Node.map none [(⟨"b", none⟩, Node.scalar none "3"),
        (⟨"c", none⟩, Node.scalar none "4")]) =
      .ok (Node.map none [(⟨"a", none⟩, Node.scalar none "1"),
        (⟨"b", none⟩, Node.scalar none "3"), (⟨"c", none⟩, Node.scalar none "4")]) ∧
    mergeWith cfgDeep
      (Node.map none [(⟨"z", none⟩, Node.scalar none "1")])
      (Node.map none [(⟨"a", none⟩, Node.scalar none "2"),
        (⟨"b", none⟩, Node.scalar none "3")]) =
      .ok (Node.map none [(⟨"z", none⟩, Node.scalar none "1"),
        (⟨"a", none⟩, Node.scalar none "2"), (⟨"b", none⟩, Node.scalar none "3")]) :=
  ⟨rfl, rfl⟩

/-! ### C1: the buffered-insertion discipline of the deep mapping merge -/

/-- C1: the claim (and the source's own comment at lines 209-211) says
buffered new keys are flushed at the position of the next pre-existing
key, just before it, in incoming order.  Evaluating the code: merging
{a:1,b:2} with {a:9,x:7,b:5} yields key order [a,b,x] (x is inserted at
index 2, the count of incoming entries processed, which lands after b,
not before it as claimed), and merging {a:1,b:2} with {x:7,y:8,b:5}
yields [a,b,y,x] (both buffered entries are inserted at the same index,
reversing their incoming order).  The claim would require [a,x,b] and
[a,x,y,b]. -/
theorem c1_buffer_flush_behavior :
    mergeDicts cfgDeep
      (Node.map none [(⟨"a", none⟩, Node.scalar none "1"),
        (⟨"b", none⟩, Node.scalar none "2")])
      (Node.map none [(⟨"a", none⟩, Node.scalar none "9"),
        (⟨"x", none⟩, Node.scalar none "7"), (⟨"b", none⟩, Node.scalar none "5")])
      none none "" =
      .ok (Node.map none [(⟨"a", none⟩, Node.scalar none "9"),
        (⟨"b", none⟩, Node.scalar none "5"), (⟨"x", none⟩, Node.scalar none "7")]) ∧
    mergeDicts cfgDeep
      (Node.map none [(⟨"a", none⟩, Node.scalar none "1"),
        (⟨"b", none⟩, Node.scalar none "2")])
      (Node.map none [(⟨"x", none⟩, Node.scalar none "7"),
        (⟨"y", none⟩, Node.scalar none "8"), (⟨"b", none⟩, Node.scalar none "5")])
      none none "" =
      .ok (Node.map none [(⟨"a", none⟩, Node.scalar none "1"),
        (⟨"b", none⟩, Node.scalar none "5"), (⟨"y", none⟩, Node.scalar none "8"),
        (⟨"x", none⟩, Node.scalar none "7")]) :=
  ⟨rfl, rfl⟩

/-! ### C3: which occurrence of a duplicated anchor name the scan records -/

/-- C3 counterexample: in a document whose two nodes both carry anchor A
(values x then y in visit order), the scan records the second occurrence,
not the first as claimed. -/
theorem c3_counterexample :
    lookupA (scanForAnchors
      (Node.seq none [Node.scalar (some "A") "x", Node.scalar (some "A") "y"]) []) "A" =
      some (Node.scalar (some "A") "y") ∧
    Node.scalar (some "A") "y" ≠ Node.scalar (some "A") "x" :=
  ⟨rfl, by simp⟩

/-- C3 amended: the scan records, for every name, the node of the last
recorded occurrence in recursive visit order (anchored mapping keys,
anchored mapping values, anchored scalar sequence elements): later
occurrences overwrite earlier ones in the name-to-node map. -/
theorem c3_scan_last_occurrence_wins (dom : Node) (a : String) :
    lookupA (scanForAnchors dom []) a =
      ((scanRecords dom).reverse.find? (fun p => p.1 == a)).map Prod.snd := by
  rw [scanForAnchors_eq dom [], lookupA_foldSet]
  cases hf : (scanRecords dom).reverse.find? (fun p => p.1 == a) with
  | some p => simp [hf]
  | none => simp [hf, lookupA]

/-! ### C5: KEEP_LEFT cannot locate anchors past the first entry -/

/-- C5: the claim (and the docstring of search_for_anchor) says one
occurrence of the target's anchored node is located and then substituted
throughout the incoming document.  Evaluating the code on a target whose
anchor A sits on the second mapping entry: the anchor is present (the
scan maps A to its node), yet search_for_anchor returns no path, because
its loops return unconditionally after the first entry; KEEP_LEFT then
hands the null path to the resolver and the merge dies with the
LookupFailure of the spec instead of substituting. -/
theorem c5_search_misses_non_first_anchor :
    searchForAnchor (Node.map none [(⟨"k1", none⟩, Node.scalar none "1"),
      (⟨"k2", none⟩, Node.scalar (some "A") "x")]) "A" "" = none ∧
    lookupA (scanForAnchors (Node.map none [(⟨"k1", none⟩, Node.scalar none "1"),
      (⟨"k2", none⟩, Node.scalar (some "A") "x")]) []) "A" =
      some (Node.scalar (some "A") "x") ∧
    resolveAnchorConflicts cfgKeepLeft
      (Node.map none [(⟨"k1", none⟩, Node.scalar none "1"),
        (⟨"k2", none⟩, Node.scalar (some "A") "x")])
      (Node.map none [(⟨"j", none⟩, Node.scalar (some "A") "y")]) =
      .error (.lookupFailure "A") :=
  ⟨rfl, rfl, rfl⟩

/-! ### C7: array-of-maps DEEP merge -/

/-- C7 counterexample: with the mapping mode RIGHT at the record
coordinate, the mapping-vs-mapping rule applied to the matched pair
returns the incoming record wholesale, yet the target list keeps the old
record, because the source discards the value returned by _merge_dicts
(the loop-variable rebinding at line 272); so the pair is not merged via
the mapping-vs-mapping rule in place as claimed. -/
theorem c7_counterexample :
    mergeLists cfgHashRight (.seq none [aohTargetRec])
      (.seq none [aohIncomingRec1]) none none "" =
      .ok (.seq none [aohTargetRec]) ∧
    mergeDicts cfgHashRight aohTargetRec aohIncomingRec1
      (some (.seq none [aohIncomingRec1])) (some (.idx 0)) "[0]" =
      .ok aohIncomingRec1 ∧
    aohIncomingRec1 ≠ aohTargetRec :=
  ⟨rfl, rfl, by simp [aohIncomingRec1, aohTargetRec]⟩

/-- C7 amended: in DEEP array-of-maps mode, for each incoming record (a
mapping carrying the policy identity key), the target list is scanned
for the first record holding a value-equal entry at the identity key; on
a match the target record is replaced by the in-place effect of the
mapping-vs-mapping merge (the merge result in DEEP mode, the unchanged
target record when a LEFT or RIGHT mapping mode applies at that
coordinate, the returned replacement being discarded); without a match
the incoming record is appended.  The claim's example holds: [{id:1,v:x}]
merged with [{id:1,v:y},{id:2,v:z}] yields [{id:1,v:y},{id:2,v:z}]. -/
theorem c7_amended_deep_aoh (cfg : MergerConfig) (rhsNode : Node)
    (path : String) (idx : Nat) (acc : List Node) (ea : Option String)
    (eles : List (SKey × Node)) (rest : List Node) (kv : Node)
    (hkv : lookupVal eles
      (cfg.aohMergeKey ⟨Node.map ea eles, some rhsNode, some (.idx idx)⟩
        (Node.map ea eles)) = some kv) :
    (∀ j tj, findMatchAoHGo
        (cfg.aohMergeKey ⟨Node.map ea eles, some rhsNode, some (.idx idx)⟩
          (Node.map ea eles)) kv 0 acc = some (j, tj) →
      mergeAoHGo cfg rhsNode path .deep idx acc (Node.map ea eles :: rest) =
        (((mergeDicts cfg tj (Node.map ea eles) (some rhsNode) (some (.idx idx))
            (path ++ "[" ++ toString idx ++ "]")).map (fun r =>
          if (path ++ "[" ++ toString idx ++ "]").length > 0 ∧
              cfg.hashMode (NodeCoords.mk (Node.map ea eles) (some rhsNode)
                (some (ParentRef.idx idx))) = HashMergeOpts.right
            then tj else r)).map (fun merged => acc.set j merged)).bind
          (fun acc1 => mergeAoHGo cfg rhsNode path .deep (idx + 1) acc1 rest)) ∧
    (findMatchAoHGo
        (cfg.aohMergeKey ⟨Node.map ea eles, some rhsNode, some (.idx idx)⟩
          (Node.map ea eles)) kv 0 acc = none →
      mergeAoHGo cfg rhsNode path .deep idx acc (Node.map ea eles :: rest) =
        mergeAoHGo cfg rhsNode path .deep (idx + 1) (acc ++ [Node.map ea eles]) rest) ∧
    mergeLists cfgDeep (.seq none [aohTargetRec])
      (.seq none [aohIncomingRec1, aohIncomingRec2]) none none "" =
      .ok (.seq none [aohIncomingRec1, aohIncomingRec2]) := by
  refine ⟨?_, ?_, rfl⟩
  · intro j tj hfind
    simp only [mergeAoHGo, hkv, hfind]
  · intro hfind
    simp only [mergeAoHGo, hkv, hfind, Except.bind]

/-- Witness for C7 at the claim's example input: the first incoming
record {id:1, v:y} matches the target record {id:1, v:x} at identity key
id and the step takes the matched branch. -/
theorem c7_amended_deep_aoh_witness :
    mergeAoHGo cfgDeep (.seq none [aohIncomingRec1, aohIncomingRec2]) ""
      .deep 0 [aohTargetRec] [aohIncomingRec1, aohIncomingRec2] =
      (((mergeDicts cfgDeep aohTargetRec
          (Node.map none [(⟨"id", none⟩, Node.scalar none "1"),
            (⟨"v", none⟩, Node.scalar none "y")])
          (some (.seq none [aohIncomingRec1, aohIncomingRec2])) (some (.idx 0))
          ("" ++ "[" ++ toString 0 ++ "]")).map (fun r =>
        if ("" ++ "[" ++ toString 0 ++ "]").length > 0 ∧
            cfgDeep.hashMode (NodeCoords.mk
              (Node.map none [(⟨"id", none⟩, Node.scalar none "1"),
                (⟨"v", none⟩, Node.scalar none "y")])
              (some (.seq none [aohIncomingRec1, aohIncomingRec2]))
              (some (ParentRef.idx 0))) = HashMergeOpts.right
          then aohTargetRec else r)).map
        (fun merged => [aohTargetRec].set 0 merged)).bind
      (fun acc1 => mergeAoHGo cfgDeep (.seq none [aohIncomingRec1, aohIncomingRec2])
        "" .deep (0 + 1) acc1 [aohIncomingRec2]) :=
  ((c7_amended_deep_aoh cfgDeep (.seq none [aohIncomingRec1, aohIncomingRec2]) "" 0
    [aohTargetRec] none
    [(⟨"id", none⟩, Node.scalar none "1"), (⟨"v", none⟩, Node.scalar none "y")]
    [aohIncomingRec2] (Node.scalar none "1") rfl).1) 0 aohTargetRec rfl

/-! ### C10: a scalar incoming root dispatches no structural merge -/

/-- C10 counterexample: with KEEP_RIGHT anchor mode, a scalar-rooted
incoming document whose anchor conflicts with the target makes the
conflict-resolution phase substitute into the accumulated target, so the
target is structurally changed even though no structural merge is
dispatched; the claim that the target is left structurally unchanged is
false. -/
theorem c10_counterexample :
    mergeWith cfgKeepRight
      (Node.map none [(⟨"k", none⟩, Node.scalar (some "A") "x")])
      (Node.scalar (some "A") "y") =
      .ok (Node.map none [(⟨"k", none⟩, Node.scalar (some "A") "y")]) ∧
    Node.map none [(⟨"k", none⟩, Node.scalar (some "A") "y")] ≠
      Node.map none [(⟨"k", none⟩, Node.scalar (some "A") "x")] :=
  ⟨rfl, by simp⟩

/-- C10 amended: for an incoming document with a scalar root, merge_with
strips comments and runs anchor-conflict resolution, dispatches no
structural merge, and returns exactly the target as conflict resolution
left it (unchanged except for mutations resolution itself performs, such
as KEEP_RIGHT substitution), silently and without error whenever
resolution succeeds. -/
theorem c10_scalar_root_keeps_resolved_target (cfg : MergerConfig)
    (lhs : Node) (a0 : Option String) (v0 : String) (lhs2 rhs2 : Node)
    (hres : resolveAnchorConflicts cfg lhs (Node.scalar a0 v0) = .ok (lhs2, rhs2)) :
    mergeWith cfg lhs (Node.scalar a0 v0) = .ok lhs2 := by
  have hloop : resolveLoop cfg (scanForAnchors lhs [])
      (scanForAnchors (Node.scalar a0 v0) [])
      (((scanForAnchors (Node.scalar a0 v0) []).map Prod.fst).filter
        (fun x => (lookupA (scanForAnchors lhs []) x).isSome))
      (lhs, Node.scalar a0 v0) = .ok (lhs2, rhs2) := by
    simpa [resolveAnchorConflicts] using hres
  obtain ⟨a1, v1, hsc⟩ := resolveLoop_ok_rhs_scalar cfg (scanForAnchors lhs [])
    (scanForAnchors (Node.scalar a0 v0) []) _ _ _ hloop ⟨a0, v0, rfl⟩
  have hsc2 : rhs2 = Node.scalar a1 v1 := hsc
  simp [mergeWith, deleteAllComments, hres, Except.bind, hsc2]

/-- Witness for C10 at a concrete input: an unanchored scalar incoming
root leaves the target {k:1} untouched, with no error. -/
theorem c10_scalar_root_keeps_resolved_target_witness :
    mergeWith cfgDeep (Node.map none [(⟨"k", none⟩, Node.scalar none "1")])
      (Node.scalar none "s") =
      .ok (Node.map none [(⟨"k", none⟩, Node.scalar none "1")]) :=
  c10_scalar_root_keeps_resolved_target cfgDeep
    (Node.map none [(⟨"k", none⟩, Node.scalar none "1")]) none "s"
    (Node.map none [(⟨"k", none⟩, Node.scalar none "1")]) (Node.scalar none "s") rfl
